import Mathlib

/-!
Verification development for the lngc-service conversation pipeline.

The definitions below are a shallow embedding of the Python sources:
`app/memory/conversation_memory.py` (the bounded conversation store),
`app/agents/orchestrator.py` (statistics formatting and the generation
fallback), and `app/handlers/stream_handler.py` (the session boundary).
Stateful methods become pure functions from the old state to the new one;
the external generation call becomes an explicit oracle of outcomes.
-/

namespace LngcService

/-- A LangChain chat message (`HumanMessage` / `AIMessage`): a content string
plus the `additional_kwargs` dictionary the store attaches. -/
inductive BaseMessage where
  | human (content : String) (additional_kwargs : List (String × String))
  | ai (content : String) (additional_kwargs : List (String × String))
deriving DecidableEq

/-- `message.content`. -/
def BaseMessage.content : BaseMessage → String
  | .human c _ => c
  | .ai c _ => c

/-- `app/schemas/input.py` `InputMessage`: text, speaker, sentiment, emotion.
The pydantic model restricts `speaker` to "client" | "agent"; the embedding
keeps it a string, since the memory code branches only on equality with
"client". -/
structure InputMessage where
  text : String
  speaker : String
  sentiment : String
  emotion : String
deriving DecidableEq

/-- One entry of `ConversationMemory.metadata_store`. -/
structure Metadata where
  speaker : String
  sentiment : String
  emotion : String
  text : String
deriving DecidableEq

/-- The state of `ConversationMemory`: the two parallel lists plus the
capacity `max_messages`. -/
structure ConversationMemory where
  messages : List BaseMessage
  metadata_store : List Metadata
  max_messages : Nat
deriving DecidableEq

/-- `ConversationMemory.__init__(max_messages)`: both lists empty. -/
def mkMemory (max_messages : Nat) : ConversationMemory :=
  ⟨[], [], max_messages⟩

/-- `ConversationMemory.add_message`: append to `messages`; if the length now
exceeds `max_messages`, pop the head of `messages` and, when
`metadata_store` is non-empty, also pop its head. -/
def ConversationMemory.add_message (m : ConversationMemory) (message : BaseMessage) :
    ConversationMemory :=
  let msgs := m.messages ++ [message]
  if msgs.length > m.max_messages then
    { m with
      messages := msgs.tail,
      metadata_store :=
        if m.metadata_store.isEmpty then m.metadata_store else m.metadata_store.tail }
  else
    { m with messages := msgs }

/-- The `BaseMessage` that `add_input_message` builds from an `InputMessage`:
a `HumanMessage` for the client, an `AIMessage` otherwise, with the
speaker/sentiment/emotion kwargs attached. -/
def msgOf (i : InputMessage) : BaseMessage :=
  if i.speaker = "client" then
    .human i.text [("speaker", i.speaker), ("sentiment", i.sentiment), ("emotion", i.emotion)]
  else
    .ai i.text [("speaker", i.speaker), ("sentiment", i.sentiment), ("emotion", i.emotion)]

/-- The metadata record that `add_input_message` appends to `metadata_store`. -/
def metaOf (i : InputMessage) : Metadata :=
  ⟨i.speaker, i.sentiment, i.emotion, i.text⟩

/-- `ConversationMemory.add_input_message`: run `add_message` on the converted
message, then append the metadata record. -/
def ConversationMemory.add_input_message (m : ConversationMemory) (input_msg : InputMessage) :
    ConversationMemory :=
  let m1 := m.add_message (msgOf input_msg)
  { m1 with metadata_store := m1.metadata_store ++ [metaOf input_msg] }

/-- `ConversationMemory.clear`: both lists replaced by fresh empty lists. -/
def ConversationMemory.clear (m : ConversationMemory) : ConversationMemory :=
  { m with messages := [], metadata_store := [] }

/-- Python `lst[a:]` for an `Int` start index: a non-negative start drops that
many elements from the front; a negative start keeps the last `-a` elements. -/
def pySliceFrom {α : Type} (l : List α) (a : Int) : List α :=
  if 0 ≤ a then l.drop a.toNat else l.drop (l.length - (-a).toNat)

/-- The `messages_to_use` selection of `get_context` (line 97):
`self.messages[-max_messages:] if max_messages else self.messages`.
Python truthiness: both `None` and `0` select the whole list. -/
def ConversationMemory.windowMessages (m : ConversationMemory) (max_messages : Option Int) :
    List BaseMessage :=
  match max_messages with
  | none => m.messages
  | some k => if k = 0 then m.messages else pySliceFrom m.messages (-k)

/-- The `metadata_to_use` selection of `get_context` (line 98). -/
def ConversationMemory.windowMetadata (m : ConversationMemory) (max_messages : Option Int) :
    List Metadata :=
  match max_messages with
  | none => m.metadata_store
  | some k => if k = 0 then m.metadata_store else pySliceFrom m.metadata_store (-k)

/-- `ConversationMemory.get_context`: render the selected window, one line per
zipped (message, metadata) pair, or the fixed sentinel when empty. -/
def ConversationMemory.get_context (m : ConversationMemory) (max_messages : Option Int) :
    String :=
  let messages_to_use := m.windowMessages max_messages
  let metadata_to_use := m.windowMetadata max_messages
  if messages_to_use.isEmpty then
    "Aucune conversation en cours."
  else
    let context_lines := (messages_to_use.zip metadata_to_use).map fun p =>
      "[" ++ p.2.speaker.toUpper ++ "] (sentiment: " ++ p.2.sentiment ++
        ", emotion: " ++ p.2.emotion ++ "): " ++ p.1.content
    String.intercalate "\n" context_lines

/-- `d[key] = d.get(key, 0) + 1` on an insertion-ordered dict, embedded as an
association list (keys are unique by construction, as in a Python dict). -/
def bump : List (String × Nat) → String → List (String × Nat)
  | [], key => [(key, 1)]
  | (k, v) :: rest, key =>
    if k = key then (k, v + 1) :: rest else (k, v) :: bump rest key

/-- The dictionary returned by `get_conversation_summary`. -/
structure ConversationSummary where
  total_messages : Nat
  client_messages : Nat
  agent_messages : Nat
  sentiments : List (String × Nat)
  emotions : List (String × Nat)
deriving DecidableEq

/-- One iteration of the `for meta in self.metadata_store` loop of
`get_conversation_summary`: bump the speaker counters and the two dicts. -/
def summaryStep (acc : Nat × Nat × List (String × Nat) × List (String × Nat))
    (meta : Metadata) : Nat × Nat × List (String × Nat) × List (String × Nat) :=
  ((if meta.speaker = "client" then acc.1 + 1 else acc.1),
   (if meta.speaker = "client" then acc.2.1 else acc.2.1 + 1),
   bump acc.2.2.1 meta.sentiment,
   bump acc.2.2.2 meta.emotion)

/-- The single pass of `get_conversation_summary` over `metadata_store`:
speaker counters plus the two frequency dicts. -/
def summaryFold (ms : List Metadata) : Nat × Nat × List (String × Nat) × List (String × Nat) :=
  ms.foldl summaryStep (0, 0, [], [])

/-- `ConversationMemory.get_conversation_summary`: the all-zero summary on an
empty `metadata_store`, otherwise the counters of the single pass. -/
def ConversationMemory.get_conversation_summary (m : ConversationMemory) :
    ConversationSummary :=
  if m.metadata_store.isEmpty then
    ⟨0, 0, 0, [], []⟩
  else
    let acc := summaryFold m.metadata_store
    ⟨m.metadata_store.length, acc.1, acc.2.1, acc.2.2.1, acc.2.2.2⟩

/-- `ConversationMemory.last_speaker`: `None` when empty, else the last
metadata entry's speaker. -/
def ConversationMemory.last_speaker (m : ConversationMemory) : Option String :=
  match m.metadata_store.getLast? with
  | none => none
  | some meta => some meta.speaker

/-- `ConversationMemory.last_emotion`. -/
def ConversationMemory.last_emotion (m : ConversationMemory) : Option String :=
  match m.metadata_store.getLast? with
  | none => none
  | some meta => some meta.emotion

/-- `ConversationMemory.last_sentiment`. -/
def ConversationMemory.last_sentiment (m : ConversationMemory) : Option String :=
  match m.metadata_store.getLast? with
  | none => none
  | some meta => some meta.sentiment

/-- `app/schemas/output.py` `OutputSuggestion`: the three suggestion fields.
All three are always present (Lean records have no null fields, matching the
pydantic defaults that never leave a field absent). -/
structure OutputSuggestion where
  questions : List String
  signals_detected : List String
  recommended_direction : String
deriving DecidableEq

/-- Any failure of the external generation call or of the validation of its
response (`invoke_orchestrator` catches every `Exception` alike). -/
structure GenerationFailure where
  message : String
deriving DecidableEq

/-- The fixed fallback suggestion of `invoke_orchestrator`
(`app/agents/orchestrator.py` lines 181-185). -/
def fallbackSuggestion : OutputSuggestion :=
  ⟨["Could you elaborate on that?"],
   ["processing_error"],
   "Continue the conversation naturally while the system recovers."⟩

/-- `invoke_orchestrator`, with the external chain call made explicit: the
oracle lists the outcome of each successive `chain.ainvoke` call.  One call is
made; a success is returned unchanged, any failure yields the fixed fallback
with no retry.  (An empty oracle — no external capability at all — is also a
failure.)  Returns the suggestion and the remaining oracle. -/
def invoke_orchestrator (oracle : List (Except GenerationFailure OutputSuggestion)) :
    OutputSuggestion × List (Except GenerationFailure OutputSuggestion) :=
  match oracle with
  | [] => (fallbackSuggestion, [])
  | Except.ok result :: rest => (result, rest)
  | Except.error _ :: rest => (fallbackSuggestion, rest)

/-- The try-block of `StreamHandler.process_message`: append the input message
to the memory, then invoke the orchestrator once.  Returns the new memory, the
suggestion, and the unconsumed oracle. -/
def process_message (m : ConversationMemory) (input_msg : InputMessage)
    (oracle : List (Except GenerationFailure OutputSuggestion)) :
    ConversationMemory × OutputSuggestion × List (Except GenerationFailure OutputSuggestion) :=
  let m1 := m.add_input_message input_msg
  let (suggestion, rest) := invoke_orchestrator oracle
  (m1, suggestion, rest)

/-- An arbitrary Python exception escaping the try-block of
`StreamHandler.process_message` (outside the pipeline's own fallback path). -/
structure PyException where
  message : String
deriving DecidableEq

/-- The second-layer fallback of `StreamHandler.process_message`
(`app/handlers/stream_handler.py` lines 77-81). -/
def handlerFallbackSuggestion : OutputSuggestion :=
  ⟨["Could you tell me more about that?"],
   ["system_error"],
   "Continue the conversation while the system recovers."⟩

/-- The except-clause of `StreamHandler.process_message`: the body either
produced a suggestion or raised; a raise is converted into the second-layer
fallback, so the boundary itself always returns an `OutputSuggestion`. -/
def process_message_boundary (body : Except PyException OutputSuggestion) :
    OutputSuggestion :=
  match body with
  | Except.ok suggestion => suggestion
  | Except.error _ => handlerFallbackSuggestion

/-- Python `repr` of an insertion-ordered str-to-int dict, as interpolated by
the f-strings of `format_stats`. -/
def dictRepr (l : List (String × Nat)) : String :=
  "\x7b" ++
    String.intercalate ", " (l.map fun p => "\x27" ++ p.1 ++ "\x27: " ++ toString p.2) ++
  "\x7d"

/-- `format_stats` (`app/agents/orchestrator.py` lines 119-140): the fixed
sentinel when the total is zero, otherwise one line per statistic. -/
def format_stats (stats : ConversationSummary) : String :=
  if stats.total_messages = 0 then
    "Début de conversation (aucun message précédent)"
  else
    String.intercalate "\n"
      ["Total messages: " ++ toString stats.total_messages,
       "Messages client: " ++ toString stats.client_messages,
       "Messages agent: " ++ toString stats.agent_messages,
       "Sentiments: " ++ dictRepr stats.sentiments,
       "Émotions: " ++ dictRepr stats.emotions]

/-- The last `n` elements of a list, in order. -/
def lastN {α : Type} (n : Nat) (l : List α) : List α :=
  l.drop (l.length - n)

/-- A whole run of append operations on a freshly constructed store. -/
def appendAll (max_messages : Nat) (inputs : List InputMessage) : ConversationMemory :=
  inputs.foldl ConversationMemory.add_input_message (mkMemory max_messages)

/-- One mutating store operation, for sequences mixing appends and clears. -/
inductive MemOp where
  | add (i : InputMessage)
  | clearOp
deriving DecidableEq

/-- Apply one operation. -/
def applyOp (m : ConversationMemory) : MemOp → ConversationMemory
  | MemOp.add i => m.add_input_message i
  | MemOp.clearOp => m.clear

/-- A whole run of operations on a freshly constructed store. -/
def runOps (max_messages : Nat) (ops : List MemOp) : ConversationMemory :=
  ops.foldl applyOp (mkMemory max_messages)

/-- The spec's rendering of one fragment line (§4.2): speaker uppercased,
then sentiment, emotion and the text. -/
def renderFragmentLine (speaker sentiment emotion text : String) : String :=
  "[" ++ speaker.toUpper ++ "] (sentiment: " ++ sentiment ++
    ", emotion: " ++ emotion ++ "): " ++ text

/-- Sum of the counts of a frequency dict. -/
def sumCounts (l : List (String × Nat)) : Nat :=
  (l.map Prod.snd).sum

/-- A sample input fragment used by concrete witnesses. -/
def exInput : InputMessage :=
  ⟨"hello", "client", "positive", "joy"⟩

/-- A second sample input fragment. -/
def exInputB : InputMessage :=
  ⟨"the pricing seems high", "client", "negative", "uncertain"⟩

/-- A third sample input fragment. -/
def exInputC : InputMessage :=
  ⟨"let me explain the tiers", "agent", "neutral", "calm"⟩

/-- A sample one-fragment store used by concrete witnesses. -/
def exMemory : ConversationMemory :=
  (mkMemory 50).add_input_message exInput

/-! ## Helper lemmas -/

theorem lastN_of_length_le {α : Type} {n : Nat} {l : List α} (h : l.length ≤ n) :
    lastN n l = l := by
  unfold lastN
  rw [Nat.sub_eq_zero_of_le h, List.drop_zero]

theorem length_lastN {α : Type} (n : Nat) (l : List α) :
    (lastN n l).length = l.length - (l.length - n) := by
  unfold lastN
  rw [List.length_drop]

theorem length_lastN_le {α : Type} (n : Nat) (l : List α) :
    (lastN n l).length ≤ n := by
  rw [length_lastN]
  omega

theorem tail_append_singleton_of_ne_nil {α : Type} {l : List α} (x : α) (h : l ≠ []) :
    (l ++ [x]).tail = l.tail ++ [x] := by
  cases l with
  | nil => exact absurd rfl h
  | cons a t => rfl

theorem lastN_tail_concat {α : Type} {N : Nat} {l : List α} (x : α)
    (hN : 1 ≤ N) (h : N ≤ l.length) :
    (lastN N l).tail ++ [x] = lastN N (l ++ [x]) := by
  have h2 : l.length + 1 - N ≤ l.length := by omega
  have h3 : l.length - N + 1 = l.length + 1 - N := by omega
  unfold lastN
  rw [List.tail_drop, h3, List.length_append, List.length_singleton,
    List.drop_append_of_le_length h2]

theorem lastN_ne_nil {α : Type} {N : Nat} {l : List α} (hN : 1 ≤ N) (h : N ≤ l.length) :
    lastN N l ≠ [] := by
  have hlen : (lastN N l).length = l.length - (l.length - N) := length_lastN N l
  intro hnil
  rw [hnil] at hlen
  simp only [List.length_nil] at hlen
  omega

/-- The length of the `lastN N l` window when the list is at least `N` long. -/
theorem length_lastN_of_le {α : Type} {N : Nat} {l : List α} (h : N ≤ l.length) :
    (lastN N l).length = N := by
  rw [length_lastN]
  omega

/-- After `add_input_message`, the new metadata record is the last entry of
`metadata_store`, whatever the capacity. -/
theorem metadata_getLast_add_input (m : ConversationMemory) (i : InputMessage) :
    (m.add_input_message i).metadata_store.getLast? = some (metaOf i) := by
  unfold ConversationMemory.add_input_message
  exact List.getLast?_concat _

/-- After `add_input_message` on a store of capacity at least one, the new
message is the last entry of `messages`. -/
theorem messages_getLast_add_input (m : ConversationMemory) (i : InputMessage)
    (hN : 1 ≤ m.max_messages) :
    (m.add_input_message i).messages.getLast? = some (msgOf i) := by
  unfold ConversationMemory.add_input_message ConversationMemory.add_message
  simp only
  split
  · rename_i hgt
    have hne : m.messages ≠ [] := by
      intro hnil
      rw [hnil] at hgt
      simp only [List.nil_append, List.length_singleton] at hgt
      omega
    simp only [tail_append_singleton_of_ne_nil _ hne]
    exact List.getLast?_concat _
  · exact List.getLast?_concat _

/-- Bumping a key adds exactly one to the total count of the dict. -/
theorem sumCounts_bump (l : List (String × Nat)) (key : String) :
    sumCounts (bump l key) = sumCounts l + 1 := by
  induction l with
  | nil => rfl
  | cons p rest ih =>
    obtain ⟨k, v⟩ := p
    unfold bump
    split
    · simp only [sumCounts, List.map_cons, List.sum_cons] at *
      omega
    · simp only [sumCounts, List.map_cons, List.sum_cons] at ih ⊢
      omega

/-- A predicate and its complement count every element exactly once. -/
theorem countP_add_countP_not {α : Type} (p : α → Bool) (l : List α) :
    l.countP p + l.countP (fun a => !p a) = l.length := by
  induction l with
  | nil => rfl
  | cons a t ih =>
    by_cases h : p a <;> simp only [List.countP_cons, List.length_cons, h] <;> simp <;> omega

/-- Loop invariant of the `get_conversation_summary` pass: starting from any
accumulator, the speaker counters grow by the client / non-client counts and
each dict total grows by the number of entries. -/
theorem summaryFold_loop (ms : List Metadata)
    (init : Nat × Nat × List (String × Nat) × List (String × Nat)) :
    (ms.foldl summaryStep init).1 =
        init.1 + ms.countP (fun meta => meta.speaker == "client") ∧
    (ms.foldl summaryStep init).2.1 =
        init.2.1 + ms.countP (fun meta => !(meta.speaker == "client")) ∧
    sumCounts (ms.foldl summaryStep init).2.2.1 = sumCounts init.2.2.1 + ms.length ∧
    sumCounts (ms.foldl summaryStep init).2.2.2 = sumCounts init.2.2.2 + ms.length := by
  induction ms generalizing init with
  | nil => simp
  | cons meta rest ih =>
    obtain ⟨ih1, ih2, ih3, ih4⟩ := ih (summaryStep init meta)
    simp only [List.foldl_cons, List.countP_cons, List.length_cons]
    rw [ih1, ih2, ih3, ih4]
    by_cases h : meta.speaker = "client" <;>
      simp [summaryStep, h, sumCounts_bump] <;>
      omega

/-- `msgOf` stores the fragment text as the message content, whatever the
speaker. -/
theorem content_msgOf (i : InputMessage) : (msgOf i).content = i.text := by
  unfold msgOf
  split <;> rfl

/-- Normal form of one `add_input_message`: the trimmed or untrimmed pair of
lists, capacity unchanged. -/
theorem add_input_message_eq (m : ConversationMemory) (i : InputMessage) :
    m.add_input_message i =
      if (m.messages ++ [msgOf i]).length > m.max_messages then
        ⟨(m.messages ++ [msgOf i]).tail,
         (if m.metadata_store.isEmpty then m.metadata_store else m.metadata_store.tail) ++
           [metaOf i],
         m.max_messages⟩
      else
        ⟨m.messages ++ [msgOf i], m.metadata_store ++ [metaOf i], m.max_messages⟩ := by
  unfold ConversationMemory.add_input_message ConversationMemory.add_message
  by_cases hc : (m.messages ++ [msgOf i]).length > m.max_messages
  · simp only [if_pos hc]
  · simp only [if_neg hc]

/-- Effect of one `add_input_message` on a state whose lists are the last `N`
entries of two equally long histories (capacity at least one): the histories
are extended and the last `N` window moves along. -/
theorem add_input_message_lastN (N : Nat) (hN : 1 ≤ N)
    (A : List BaseMessage) (B : List Metadata) (hAB : A.length = B.length)
    (i : InputMessage) :
    ConversationMemory.add_input_message ⟨lastN N A, lastN N B, N⟩ i =
      ⟨lastN N (A ++ [msgOf i]), lastN N (B ++ [metaOf i]), N⟩ := by
  rw [add_input_message_eq]
  by_cases h : N ≤ A.length
  · have hlenA : (lastN N A).length = N := length_lastN_of_le h
    have hB : N ≤ B.length := by omega
    have hBne : lastN N B ≠ [] := lastN_ne_nil hN hB
    have hcond : (lastN N A ++ [msgOf i]).length > N := by
      rw [List.length_append, hlenA, List.length_singleton]
      omega
    rw [if_pos hcond, if_neg (by simp only [List.isEmpty_iff]; exact hBne)]
    have hmsg : (lastN N A ++ [msgOf i]).tail = lastN N (A ++ [msgOf i]) := by
      rw [tail_append_singleton_of_ne_nil _ (lastN_ne_nil hN h)]
      exact lastN_tail_concat _ hN h
    have hmeta : (lastN N B).tail ++ [metaOf i] = lastN N (B ++ [metaOf i]) :=
      lastN_tail_concat _ hN hB
    rw [hmsg, hmeta]
  · have hlA : lastN N A = A := lastN_of_length_le (by omega)
    have hlB : lastN N B = B := lastN_of_length_le (by omega)
    have hcond : ¬((lastN N A ++ [msgOf i]).length > N) := by
      rw [hlA, List.length_append, List.length_singleton]
      omega
    rw [if_neg hcond, hlA, hlB,
      lastN_of_length_le (by rw [List.length_append, List.length_singleton]; omega),
      lastN_of_length_le (by rw [List.length_append, List.length_singleton]; omega)]

/-- The whole run of appends on a fresh store of capacity `N ≥ 1` keeps
exactly the last `N` converted messages and metadata records. -/
theorem appendAll_eq (N : Nat) (hN : 1 ≤ N) (inputs : List InputMessage) :
    appendAll N inputs = ⟨lastN N (inputs.map msgOf), lastN N (inputs.map metaOf), N⟩ := by
  induction inputs using List.reverseRecOn with
  | nil => simp [appendAll, mkMemory, lastN]
  | append_singleton l x ih =>
    unfold appendAll at *
    rw [List.foldl_append, List.foldl_cons, List.foldl_nil, ih,
      add_input_message_lastN N hN _ _ (by simp) x]
    simp only [List.map_append, List.map_cons, List.map_nil]

/-- The single pass started from the all-zero accumulator computes the client
count, the non-client count, and dict totals equal to the length. -/
theorem summaryFold_spec (ms : List Metadata) :
    (summaryFold ms).1 = ms.countP (fun meta => meta.speaker == "client") ∧
    (summaryFold ms).2.1 = ms.countP (fun meta => !(meta.speaker == "client")) ∧
    sumCounts (summaryFold ms).2.2.1 = ms.length ∧
    sumCounts (summaryFold ms).2.2.2 = ms.length := by
  have h := summaryFold_loop ms (0, 0, [], [])
  simpa [summaryFold, sumCounts] using h

/-! ## Claim theorems -/

/-- Claim C7: `clear()` empties both lists, is idempotent, and afterwards the
summary is the empty-store summary and `last_speaker` is absent. -/
theorem clear_idempotent_spec (m : ConversationMemory) :
    (m.clear).messages = [] ∧
    (m.clear).metadata_store = [] ∧
    m.clear.clear = m.clear ∧
    (m.clear).get_conversation_summary = ⟨0, 0, 0, [], []⟩ ∧
    (m.clear).last_speaker = none := by
  refine ⟨rfl, rfl, rfl, ?_, rfl⟩
  rfl

/-- Claim C4: `get_conversation_summary` on an empty store is the all-zero
summary with empty frequency dicts, and on every store the sentiment counts
and the emotion counts each sum to the total fragment count. -/
theorem summarize_empty_and_totals (m : ConversationMemory) :
    (m.metadata_store = [] → m.get_conversation_summary = ⟨0, 0, 0, [], []⟩) ∧
    sumCounts m.get_conversation_summary.sentiments =
      m.get_conversation_summary.total_messages ∧
    sumCounts m.get_conversation_summary.emotions =
      m.get_conversation_summary.total_messages := by
  obtain ⟨h1, h2, h3, h4⟩ := summaryFold_spec m.metadata_store
  unfold ConversationMemory.get_conversation_summary
  by_cases h : m.metadata_store = []
  · simp [h, sumCounts]
  · simp only [List.isEmpty_iff]
    rw [if_neg h]
    exact ⟨fun hc => absurd hc h, h3, h4⟩

/-- Witness for C4 at the concrete empty store. -/
theorem summarize_empty_and_totals_witness :
    (mkMemory 50).get_conversation_summary = ⟨0, 0, 0, [], []⟩ :=
  (summarize_empty_and_totals (mkMemory 50)).1 rfl

/-- Claim C10: the per-speaker counts partition the total —
`client_messages` counts exactly the fragments whose speaker is `"client"`,
`agent_messages` counts all the others, and the two sum to
`total_messages`. -/
theorem speaker_counts_partition (m : ConversationMemory) :
    m.get_conversation_summary.client_messages =
      m.metadata_store.countP (fun meta => meta.speaker == "client") ∧
    m.get_conversation_summary.agent_messages =
      m.metadata_store.countP (fun meta => !(meta.speaker == "client")) ∧
    m.get_conversation_summary.client_messages +
        m.get_conversation_summary.agent_messages =
      m.get_conversation_summary.total_messages := by
  obtain ⟨h1, h2, h3, h4⟩ := summaryFold_spec m.metadata_store
  unfold ConversationMemory.get_conversation_summary
  by_cases h : m.metadata_store = []
  · simp [h]
  · simp only [List.isEmpty_iff]
    rw [if_neg h]
    refine ⟨h1, h2, ?_⟩
    show (summaryFold m.metadata_store).1 + (summaryFold m.metadata_store).2.1 =
      m.metadata_store.length
    rw [h1, h2]
    exact countP_add_countP_not _ _

/-- Claim C5: whatever exception escapes the body of
`StreamHandler.process_message`, the boundary returns (never raises) the
second-layer fallback: all three fields are present and non-null by
construction, and `signals_detected` contains the processing-error sentinel
label `"system_error"`. -/
theorem boundary_never_raises (e : PyException) :
    process_message_boundary (Except.error e) = handlerFallbackSuggestion ∧
    handlerFallbackSuggestion.questions = ["Could you tell me more about that?"] ∧
    handlerFallbackSuggestion.signals_detected = ["system_error"] ∧
    handlerFallbackSuggestion.recommended_direction =
      "Continue the conversation while the system recovers." ∧
    "system_error" ∈ handlerFallbackSuggestion.signals_detected := by
  refine ⟨rfl, rfl, rfl, rfl, ?_⟩
  simp [handlerFallbackSuggestion]

/-- Claim C1: for every sequence of appends on a store of capacity `N ≥ 1`,
the store holds at most `N` fragments, and holds exactly the `N` most recently
appended fragments in arrival order (the oldest evicted from the head):
messages and metadata are the `lastN N` suffix of the full histories. -/
theorem capacity_invariant_and_eviction (N : Nat) (hN : 1 ≤ N)
    (inputs : List InputMessage) :
    (appendAll N inputs).messages.length ≤ N ∧
    (appendAll N inputs).metadata_store.length ≤ N ∧
    (appendAll N inputs).messages = lastN N (inputs.map msgOf) ∧
    (appendAll N inputs).metadata_store = lastN N (inputs.map metaOf) := by
  rw [appendAll_eq N hN inputs]
  exact ⟨length_lastN_le _ _, length_lastN_le _ _, rfl, rfl⟩

/-- Witness for C1: capacity 2, three appends, store keeps the last two. -/
theorem capacity_invariant_and_eviction_witness :
    (appendAll 2 [exInput, exInputB, exInputC]).metadata_store =
      lastN 2 ([exInput, exInputB, exInputC].map metaOf) :=
  (capacity_invariant_and_eviction 2 (by decide) [exInput, exInputB, exInputC]).2.2.2

/-- Claim C9 counterexample: a store freshly constructed with capacity `0`
desynchronizes after a single append — the eviction pops `messages` (leaving
it empty) but not the still-empty `metadata_store`, which then receives the
metadata record: lengths 0 and 1. -/
theorem parallel_lists_desync_counterexample :
    (runOps 0 [MemOp.add exInput]).messages.length ≠
      (runOps 0 [MemOp.add exInput]).metadata_store.length := by
  decide

/-- One operation preserves the synchronization of the two lists (and the
capacity), provided the capacity is at least one. -/
theorem sync_applyOp (m : ConversationMemory) (hN : 1 ≤ m.max_messages)
    (hsync : m.messages.map BaseMessage.content = m.metadata_store.map Metadata.text)
    (op : MemOp) :
    (applyOp m op).messages.map BaseMessage.content =
      (applyOp m op).metadata_store.map Metadata.text ∧
    (applyOp m op).max_messages = m.max_messages := by
  cases op with
  | clearOp => exact ⟨rfl, rfl⟩
  | add i =>
    have hlen : m.messages.length = m.metadata_store.length := by
      have h := congrArg List.length hsync
      simpa using h
    show (m.add_input_message i).messages.map BaseMessage.content =
        (m.add_input_message i).metadata_store.map Metadata.text ∧
      (m.add_input_message i).max_messages = m.max_messages
    rw [add_input_message_eq]
    by_cases hc : (m.messages ++ [msgOf i]).length > m.max_messages
    · have hmlen : m.max_messages ≤ m.messages.length := by
        rw [List.length_append, List.length_singleton] at hc
        omega
      have hmne : m.messages ≠ [] := by
        intro hnil
        rw [hnil] at hmlen
        simp only [List.length_nil] at hmlen
        omega
      have hdne : m.metadata_store ≠ [] := by
        intro hnil
        rw [hnil] at hlen
        simp only [List.length_nil] at hlen
        omega
      rw [if_pos hc, if_neg (by simp only [List.isEmpty_iff]; exact hdne)]
      refine ⟨?_, rfl⟩
      rw [tail_append_singleton_of_ne_nil _ hmne]
      simp only [List.map_append, List.map_cons, List.map_nil, List.map_tail,
        content_msgOf, hsync]
      rfl
    · rw [if_neg hc]
      refine ⟨?_, rfl⟩
      simp only [List.map_append, List.map_cons, List.map_nil, content_msgOf, hsync]
      rfl

/-- A whole run of appends and clears from a fresh store of capacity `N ≥ 1`
keeps the two lists synchronized and the capacity unchanged. -/
theorem runOps_sync (N : Nat) (hN : 1 ≤ N) (ops : List MemOp) :
    (runOps N ops).messages.map BaseMessage.content =
      (runOps N ops).metadata_store.map Metadata.text ∧
    (runOps N ops).max_messages = N := by
  unfold runOps
  induction ops using List.reverseRecOn with
  | nil => exact ⟨rfl, rfl⟩
  | append_singleton l x ih =>
    rw [List.foldl_append, List.foldl_cons, List.foldl_nil]
    obtain ⟨ihs, ihm⟩ := ih
    have h := sync_applyOp _ (by rw [ihm]; exact hN) ihs x
    exact ⟨h.1, by rw [h.2, ihm]⟩

/-- Claim C9 (amended): for a store constructed with capacity `N ≥ 1`, every
sequence of `add_input_message` and `clear` operations keeps
`len(messages) = len(metadata_store)` with the i-th message content equal to
the i-th metadata text — the invariant the `zip` of `get_context` relies on.
(Capacity `0`, though constructible, breaks it: see the counterexample.) -/
theorem parallel_lists_synchronized (N : Nat) (hN : 1 ≤ N) (ops : List MemOp) :
    (runOps N ops).messages.length = (runOps N ops).metadata_store.length ∧
    ∀ j : Nat, ((runOps N ops).messages[j]?).map BaseMessage.content =
      ((runOps N ops).metadata_store[j]?).map Metadata.text := by
  obtain ⟨hsync, -⟩ := runOps_sync N hN ops
  constructor
  · have h := congrArg List.length hsync
    simpa using h
  · intro j
    have h := congrArg (fun l => l[j]?) hsync
    simpa [List.getElem?_map] using h

/-- Witness for the amended C9 at a concrete capacity and operation list. -/
theorem parallel_lists_synchronized_witness :
    (runOps 50 [MemOp.add exInput, MemOp.clearOp, MemOp.add exInputB]).messages.length =
      (runOps 50 [MemOp.add exInput, MemOp.clearOp, MemOp.add exInputB]).metadata_store.length :=
  (parallel_lists_synchronized 50 (by decide)
    [MemOp.add exInput, MemOp.clearOp, MemOp.add exInputB]).1

/-- Claim C3 counterexample: on a one-fragment store the window for the
argument `0` is the whole fragment list — not the empty sequence the claim
demands for every `k ≤ 0` (line 97 tests Python truthiness, and `0` is falsy,
selecting all messages). -/
theorem window_nonpositive_counterexample :
    exMemory.windowMessages (some 0) ≠ [] ∧ exMemory.windowMetadata (some 0) ≠ [] := by
  decide

/-- Claim C3 (amended): the window operation returns the last `k` fragments in
arrival order for `0 < k`, all fragments when the argument is omitted, all
fragments also for `k = 0` (falsy, treated like omitted), and for `k < 0` the
fragments left after removing the first `-k` (Python slice semantics); the
store is never mutated (the selection is a pure read of both lists). -/
theorem window_characterization (m : ConversationMemory) (k : Int) :
    m.windowMessages none = m.messages ∧
    m.windowMetadata none = m.metadata_store ∧
    (k = 0 → m.windowMessages (some k) = m.messages ∧
             m.windowMetadata (some k) = m.metadata_store) ∧
    (0 < k → m.windowMessages (some k) = lastN k.toNat m.messages ∧
             m.windowMetadata (some k) = lastN k.toNat m.metadata_store) ∧
    (k < 0 → m.windowMessages (some k) = m.messages.drop (-k).toNat ∧
             m.windowMetadata (some k) = m.metadata_store.drop (-k).toNat) := by
  refine ⟨rfl, rfl, ?_, ?_, ?_⟩
  · rintro rfl
    exact ⟨rfl, rfl⟩
  · intro hk
    constructor
    · simp only [ConversationMemory.windowMessages, pySliceFrom, lastN]
      rw [if_neg (by omega : ¬k = 0), if_neg (by omega : ¬(0 : Int) ≤ -k)]
      simp
    · simp only [ConversationMemory.windowMetadata, pySliceFrom, lastN]
      rw [if_neg (by omega : ¬k = 0), if_neg (by omega : ¬(0 : Int) ≤ -k)]
      simp
  · intro hk
    constructor
    · simp only [ConversationMemory.windowMessages, pySliceFrom]
      rw [if_neg (by omega : ¬k = 0), if_pos (by omega : (0 : Int) ≤ -k)]
    · simp only [ConversationMemory.windowMetadata, pySliceFrom]
      rw [if_neg (by omega : ¬k = 0), if_pos (by omega : (0 : Int) ≤ -k)]

/-- Witness for the amended C3 at a concrete store and a positive argument. -/
theorem window_characterization_witness :
    exMemory.windowMessages (some 1) = lastN (1 : Int).toNat exMemory.messages :=
  ((window_characterization exMemory 1).2.2.2.1 (by decide)).1

/-- Claim C6: `get_context` renders a non-empty window one line per zipped
(message, metadata) pair in arrival order, each line in the spec's format with
the speaker uppercased, and returns the fixed sentinel on an empty window. -/
theorem context_formatter_lines (m : ConversationMemory) (k : Option Int) :
    (m.windowMessages k = [] → m.get_context k = "Aucune conversation en cours.") ∧
    (m.windowMessages k ≠ [] →
      m.get_context k = String.intercalate "\n"
        (((m.windowMessages k).zip (m.windowMetadata k)).map fun p =>
          renderFragmentLine p.2.speaker p.2.sentiment p.2.emotion p.1.content)) := by
  constructor
  · intro h
    unfold ConversationMemory.get_context
    simp [h]
  · intro h
    unfold ConversationMemory.get_context
    match hw : m.windowMessages k with
    | [] => exact absurd hw h
    | x :: xs => simp [hw, renderFragmentLine]

/-- Witness for C6 at a concrete non-empty window. -/
theorem context_formatter_lines_witness :
    exMemory.get_context none = String.intercalate "\n"
      (((exMemory.windowMessages none).zip (exMemory.windowMetadata none)).map fun p =>
        renderFragmentLine p.2.speaker p.2.sentiment p.2.emotion p.1.content) :=
  (context_formatter_lines exMemory none).2 (by decide)

/-- Claim C8: formatting is deterministic and depends only on its arguments —
stores with equal lists give byte-identical context text for the same window
argument, and summaries with equal fields give byte-identical statistics
text. -/
theorem formatting_deterministic (m1 m2 : ConversationMemory) (k : Option Int)
    (hmsg : m1.messages = m2.messages) (hmeta : m1.metadata_store = m2.metadata_store)
    (s1 s2 : ConversationSummary)
    (ht : s1.total_messages = s2.total_messages)
    (hc : s1.client_messages = s2.client_messages)
    (ha : s1.agent_messages = s2.agent_messages)
    (hs : s1.sentiments = s2.sentiments)
    (he : s1.emotions = s2.emotions) :
    m1.get_context k = m2.get_context k ∧ format_stats s1 = format_stats s2 := by
  constructor
  · unfold ConversationMemory.get_context ConversationMemory.windowMessages
      ConversationMemory.windowMetadata
    rw [hmsg, hmeta]
  · cases s1
    cases s2
    dsimp only at ht hc ha hs he
    subst ht
    subst hc
    subst ha
    subst hs
    subst he
    rfl

/-- Witness for C8 at a concrete store and summary. -/
theorem formatting_deterministic_witness :
    exMemory.get_context none = exMemory.get_context none ∧
    format_stats ⟨0, 0, 0, [], []⟩ = format_stats ⟨0, 0, 0, [], []⟩ :=
  formatting_deterministic exMemory exMemory none rfl rfl
    ⟨0, 0, 0, [], []⟩ ⟨0, 0, 0, [], []⟩ rfl rfl rfl rfl rfl

/-- Claim C2: when the generation step fails for any cause, `process_message`
returns exactly the fixed fallback suggestion, consumes exactly one generation
attempt (no retry), and the triggering fragment is the last element of both
store lists afterwards. -/
theorem generation_failure_fallback (m : ConversationMemory) (i : InputMessage)
    (e : GenerationFailure) (rest : List (Except GenerationFailure OutputSuggestion))
    (hN : 1 ≤ m.max_messages) :
    (process_message m i (Except.error e :: rest)).2.1 = fallbackSuggestion ∧
    fallbackSuggestion.questions = ["Could you elaborate on that?"] ∧
    fallbackSuggestion.signals_detected = ["processing_error"] ∧
    fallbackSuggestion.recommended_direction =
      "Continue the conversation naturally while the system recovers." ∧
    (process_message m i (Except.error e :: rest)).2.2 = rest ∧
    (process_message m i (Except.error e :: rest)).1.messages.getLast? = some (msgOf i) ∧
    (process_message m i (Except.error e :: rest)).1.metadata_store.getLast? =
      some (metaOf i) := by
  refine ⟨rfl, rfl, rfl, rfl, rfl, ?_, ?_⟩
  · exact messages_getLast_add_input m i hN
  · exact metadata_getLast_add_input m i

/-- Witness for C2 at a concrete store, fragment and failing oracle. -/
theorem generation_failure_fallback_witness :
    (process_message (mkMemory 50) exInput [Except.error ⟨"timeout"⟩]).2.1 =
        fallbackSuggestion ∧
    (process_message (mkMemory 50) exInput [Except.error ⟨"timeout"⟩]).1.messages.getLast? =
        some (msgOf exInput) :=
  ⟨(generation_failure_fallback (mkMemory 50) exInput ⟨"timeout"⟩ [] (by decide)).1,
   (generation_failure_fallback (mkMemory 50) exInput ⟨"timeout"⟩ [] (by decide)).2.2.2.2.2.1⟩

end LngcService
